import Mathlib

/-!
Verification of the address encode/decode core of `src/util/address.rs`
(a multi-coin fork of rust-bitcoin's address module).

The address module itself (payload/prefix data model, constructors,
`Display`, `FromStr`, classification and network-compatibility checks)
is translated directly from the source.  The external collaborators the
spec declares out of scope — the Base58Check and Bech32 codecs, the
script-shape predicates, the hash primitives and the per-coin constant
tables — are modelled from the spec's description of their interfaces;
every such definition carries a doc comment starting with
`Modelled from the spec:`.

Text is modelled as `List Char`; bytes and 5-bit Bech32 symbols are
modelled as `Nat` with explicit range conditions where they matter.
-/

/-- Rust strings are modelled as lists of characters.  All characters
relevant to address text are ASCII, so `String::len` (a byte count in
Rust) coincides with list length. -/
abbrev Str := List Char

/-! ## External enums and per-coin constants -/

/-- Modelled from the spec: the external `Network` enum
(`crate::network::constants::Network`), listed in spec §3 as
Bitcoin/Testnet/Signet/Regtest. -/
inductive Network where
  | bitcoin
  | testnet
  | signet
  | regtest
deriving DecidableEq

/-- `Blockchain` — the supported coin selector (source lines 611-622). -/
inductive Blockchain where
  | bitcoin
  | dogecoin
  | litecoin
  | stratis
deriving DecidableEq

/-- Modelled from the spec: `Display` text of the external `Network`
enum, used only inside the diagnostic placeholder hrp of
`Prefix::from_payload`; the exact words never influence parsing. -/
def networkText (n : Network) : Str :=
  (match n with
   | .bitcoin => "bitcoin"
   | .testnet => "testnet"
   | .signet => "signet"
   | .regtest => "regtest").toList

/-- `Display` text of `Blockchain` (source lines 624-634). -/
def blockchainText (c : Blockchain) : Str :=
  (match c with
   | .bitcoin => "Bitcoin"
   | .dogecoin => "Dogecoin"
   | .litecoin => "Litecoin"
   | .stratis => "Stratis").toList

/-- Modelled from the spec: the Base58 version-byte table of
`crate::blockdata::constants` (missing from `src/`); spec §4.4 and §4.6
describe a fixed table keyed by (is-mainnet, coin).  The claims depend
only on the class structure of the table (mainnet pubkey / mainnet
script / testnet pubkey / testnet script, per coin), not on the exact
byte values, which are taken from the publicly documented chains. -/
def BITCOIN_PUBKEY_ADDRESS_PREFIX_MAIN : Nat := 0
/-- Modelled from the spec: see `BITCOIN_PUBKEY_ADDRESS_PREFIX_MAIN`. -/
def BITCOIN_SCRIPT_ADDRESS_PREFIX_MAIN : Nat := 5
/-- Modelled from the spec: see `BITCOIN_PUBKEY_ADDRESS_PREFIX_MAIN`. -/
def BITCOIN_PUBKEY_ADDRESS_PREFIX_TEST : Nat := 111
/-- Modelled from the spec: see `BITCOIN_PUBKEY_ADDRESS_PREFIX_MAIN`. -/
def BITCOIN_SCRIPT_ADDRESS_PREFIX_TEST : Nat := 196
/-- Modelled from the spec: see `BITCOIN_PUBKEY_ADDRESS_PREFIX_MAIN`. -/
def DOGECOIN_PUBKEY_ADDRESS_PREFIX_MAIN : Nat := 30
/-- Modelled from the spec: see `BITCOIN_PUBKEY_ADDRESS_PREFIX_MAIN`. -/
def DOGECOIN_SCRIPT_ADDRESS_PREFIX_MAIN : Nat := 22
/-- Modelled from the spec: see `BITCOIN_PUBKEY_ADDRESS_PREFIX_MAIN`. -/
def DOGECOIN_PUBKEY_ADDRESS_PREFIX_TEST : Nat := 113
/-- Modelled from the spec: see `BITCOIN_PUBKEY_ADDRESS_PREFIX_MAIN`. -/
def DOGECOIN_SCRIPT_ADDRESS_PREFIX_TEST : Nat := 196
/-- Modelled from the spec: see `BITCOIN_PUBKEY_ADDRESS_PREFIX_MAIN`. -/
def LITECOIN_PUBKEY_ADDRESS_PREFIX_MAIN : Nat := 48
/-- Modelled from the spec: see `BITCOIN_PUBKEY_ADDRESS_PREFIX_MAIN`. -/
def LITECOIN_SCRIPT_ADDRESS_PREFIX_MAIN : Nat := 50
/-- Modelled from the spec: see `BITCOIN_PUBKEY_ADDRESS_PREFIX_MAIN`. -/
def LITECOIN_PUBKEY_ADDRESS_PREFIX_TEST : Nat := 111
/-- Modelled from the spec: see `BITCOIN_PUBKEY_ADDRESS_PREFIX_MAIN`. -/
def LITECOIN_SCRIPT_ADDRESS_PREFIX_TEST : Nat := 58
/-- Modelled from the spec: see `BITCOIN_PUBKEY_ADDRESS_PREFIX_MAIN`. -/
def STRATIS_PUBKEY_ADDRESS_PREFIX_MAIN : Nat := 75
/-- Modelled from the spec: see `BITCOIN_PUBKEY_ADDRESS_PREFIX_MAIN`. -/
def STRATIS_SCRIPT_ADDRESS_PREFIX_MAIN : Nat := 140
/-- Modelled from the spec: see `BITCOIN_PUBKEY_ADDRESS_PREFIX_MAIN`. -/
def STRATIS_PUBKEY_ADDRESS_PREFIX_TEST : Nat := 120
/-- Modelled from the spec: see `BITCOIN_PUBKEY_ADDRESS_PREFIX_MAIN`. -/
def STRATIS_SCRIPT_ADDRESS_PREFIX_TEST : Nat := 127

/-- `MAX_SCRIPT_ELEMENT_SIZE` (520 bytes), referenced by spec §4.3. -/
def MAX_SCRIPT_ELEMENT_SIZE : Nat := 520

/-! ## Error types -/

/-- Modelled from the spec: error kinds of `crate::util::base58`
(missing from `src/`); spec §4.6 step 3 names `InvalidLength` and
`InvalidAddressVersion`, and §7 mentions the primitive's own
decode/checksum error kinds. -/
inductive Base58Error where
  | invalidLength (len : Nat)
  | invalidAddressVersion (v : Nat)
  | badByte (c : Char)
  | badChecksum
deriving DecidableEq

/-- Modelled from the spec: error kinds of the external bech32 crate;
spec §7 groups them as wrapped upstream decode/checksum failures. -/
inductive Bech32Error where
  | missingSeparator
  | invalidChar (c : Char)
  | invalidChecksum
  | invalidLength
  | mixedCase
  | invalidPadding
deriving DecidableEq

/-- The two Bech32 checksum variants (`bech32::Variant`). -/
inductive Variant where
  | bech32
  | bech32m
deriving DecidableEq

/-- `address::Error` (source lines 54-89). -/
inductive AddrError where
  | base58E (e : Base58Error)
  | bech32E (e : Bech32Error)
  | emptyBech32Payload
  | invalidBech32Variant (expected found : Variant)
  | invalidWitnessVersion (v : Nat)
  | unparsableWitnessVersion
  | malformedWitnessVersion
  | invalidWitnessProgramLength (l : Nat)
  | invalidSegwitV0ProgramLength (l : Nat)
  | uncompressedPubkey
  | excessiveScriptSize
  | unrecognizedScript
  | unknownAddressType (s : Str)
deriving DecidableEq

/-! ## WitnessVersion -/

/-- `WitnessVersion` (source lines 194-231): a validated integer in
[0,16]. -/
inductive WitnessVersion where
  | v0 | v1 | v2 | v3 | v4 | v5 | v6 | v7 | v8
  | v9 | v10 | v11 | v12 | v13 | v14 | v15 | v16
deriving DecidableEq, Fintype

namespace WitnessVersion

/-- `WitnessVersion::to_num` (source line 310): the `repr(u8)` value. -/
def toNum : WitnessVersion → Nat
  | v0 => 0 | v1 => 1 | v2 => 2 | v3 => 3 | v4 => 4 | v5 => 5
  | v6 => 6 | v7 => 7 | v8 => 8 | v9 => 9 | v10 => 10 | v11 => 11
  | v12 => 12 | v13 => 13 | v14 => 14 | v15 => 15 | v16 => 16

/-- `impl TryFrom<u8> for WitnessVersion` (source lines 336-371).
The argument stands for a `u8`; callers pass values below 256. -/
def tryFromU8 (no : Nat) : Except AddrError WitnessVersion :=
  match no with
  | 0 => .ok v0
  | 1 => .ok v1
  | 2 => .ok v2
  | 3 => .ok v3
  | 4 => .ok v4
  | 5 => .ok v5
  | 6 => .ok v6
  | 7 => .ok v7
  | 8 => .ok v8
  | 9 => .ok v9
  | 10 => .ok v10
  | 11 => .ok v11
  | 12 => .ok v12
  | 13 => .ok v13
  | 14 => .ok v14
  | 15 => .ok v15
  | 16 => .ok v16
  | wrong => .error (.invalidWitnessVersion wrong)

/-- `WitnessVersion::bech32_variant` (source lines 313-318). -/
def bech32Variant : WitnessVersion → Variant
  | v0 => .bech32
  | _ => .bech32m

end WitnessVersion

/-- `OP_PUSHNUM_1` opcode byte (0x51); a fixed Bitcoin script constant
referenced by the source's opcode conversions. -/
def OP_PUSHNUM_1 : Nat := 81

/-- `OP_PUSHNUM_16` opcode byte (0x60). -/
def OP_PUSHNUM_16 : Nat := 96

/-- `impl TryFrom<opcodes::All> for WitnessVersion`
(source lines 373-394); opcodes are modelled as their `u8` value. -/
def witnessVersionTryFromOpcode (opcode : Nat) : Except AddrError WitnessVersion :=
  if opcode = 0 then .ok .v0
  else if OP_PUSHNUM_1 ≤ opcode ∧ opcode ≤ OP_PUSHNUM_16 then
    WitnessVersion.tryFromU8 (opcode - OP_PUSHNUM_1 + 1)
  else .error .malformedWitnessVersion

/-! ## Base58Check model -/

/-- The value of a big-endian digit string in base `b`. -/
def baseVal (b : Nat) (l : List Nat) : Nat := l.foldl (fun a d => a * b + d) 0

/-- The `k` big-endian base-`b` digits of `n`, zero-padded at the
front. -/
def padDigits (b k n : Nat) : List Nat :=
  (List.range k).map (fun i => n / b ^ (k - 1 - i) % b)

/-- Modelled from the spec: the standard 58-character Base58 alphabet
of `crate::util::base58` (missing from `src/`; spec §1 treats the
module as "a primitive that encodes/decodes a byte buffer with an
appended 4-byte checksum", and the spec §8 test vectors fix the
standard alphabet, whose first character is `'1'`). -/
def b58Alphabet : List Char :=
  "123456789ABCDEFGHJKLMNPQRSTUVWXYZabcdefghijkmnopqrstuvwxyz".toList

/-- Modelled from the spec: the 4-byte checksum Base58Check appends
(spec §6: "4-byte checksum (double-hash of payload, first 4 bytes)").
The hash itself is out of scope; the model uses a deterministic fold. -/
def b58Checksum (data : List Nat) : List Nat :=
  let n := data.foldl (fun a b => (a * 31 + b) % 4294967296) 7
  [n / 16777216 % 256, n / 65536 % 256, n / 256 % 256, n % 256]

/-- A base-58 digit rendered as its alphabet character. -/
def b58DigitChar (d : Nat) : Char := b58Alphabet.getD d '?'

/-- Modelled from the spec: Base58 encoding proper — one `'1'` per
leading zero byte, then the base-58 digits of the remaining big-endian
number (computed with enough digit positions for any byte string of
this length, leading zero digits stripped). -/
def b58Encode (data : List Nat) : Str :=
  List.replicate (data.takeWhile (· = 0)).length '1' ++
    ((padDigits 58 (2 * data.length) (baseVal 256 data)).dropWhile (· = 0)).map b58DigitChar

/-- Modelled from the spec: `base58::check_encode_slice_to_fmt` —
Base58 encoding of the byte buffer with its checksum appended. -/
def b58CheckEncode (data : List Nat) : Str := b58Encode (data ++ b58Checksum data)

/-- Inverse character lookup of the Base58 alphabet. -/
def b58DecChar (c : Char) : Option Nat := b58Alphabet.findIdx? (· = c)

/-- Character-wise Base58 digit decoding; a character outside the
alphabet fails with `BadByte` of that character. -/
def b58DecDigits : Str → Except Base58Error (List Nat)
  | [] => .ok []
  | c :: rest =>
    match b58DecChar c with
    | none => .error (.badByte c)
    | some d =>
      match b58DecDigits rest with
      | .error e => .error e
      | .ok ds => .ok (d :: ds)

/-- Modelled from the spec: Base58 decoding — one zero byte per leading
`'1'`, then the big-endian bytes of the number the digits denote. -/
def b58Decode (s : Str) : Except Base58Error (List Nat) :=
  match b58DecDigits s with
  | .error e => .error e
  | .ok ds => .ok (List.replicate (s.takeWhile (· = '1')).length 0 ++
      (padDigits 256 s.length (baseVal 58 ds)).dropWhile (· = 0))

/-- Modelled from the spec: `base58::from_check` — decode and validate
the embedded checksum, returning the byte buffer without it. -/
def b58FromCheck (s : Str) : Except Base58Error (List Nat) :=
  match b58Decode s with
  | .error e => .error e
  | .ok bytes =>
    if bytes.length < 4 then .error (.invalidLength bytes.length)
    else
      let front := bytes.take (bytes.length - 4)
      let tail := bytes.drop (bytes.length - 4)
      if tail = b58Checksum front then .ok front
      else .error .badChecksum

/-! ## Bech32 model -/

/-- The 32-character Bech32 data alphabet (BIP-173); contains neither
`'1'` nor `'b'` nor any uppercase letter. -/
def bech32Charset : List Char :=
  ['q', 'p', 'z', 'r', 'y', '9', 'x', '8', 'g', 'f', '2', 't', 'v', 'd', 'w',
   '0', 's', '3', 'j', 'n', '5', '4', 'k', 'h', 'c', 'e', '6', 'm', 'u', 'a', '7', 'l']

/-- Renders one 5-bit symbol as a Bech32 data character. -/
def bech32EncChar (u : Nat) : Char := bech32Charset.getD u '?'

/-- Inverse character lookup of the Bech32 data alphabet. -/
def bech32DecChar (c : Char) : Option Nat :=
  bech32Charset.findIdx? (· = c)

/-- Modelled from the spec: the Bech32 checksum core.  The real BCH
checksum algorithm is out of scope (spec §1); the model folds the hrp
and data into 25 bits rendered as five symbols, preceded by one symbol
recording the checksum variant, so that — as the spec requires of the
primitive — decoding recovers the variant and any tampering with data
or hrp invalidates the checksum. -/
def bech32Chk (hrp : Str) (data : List Nat) : List Nat :=
  let n := ((hrp.map Char.toNat) ++ data).foldl (fun a c => (a * 33 + c) % 33554432) 1
  [n / 1048576 % 32, n / 32768 % 32, n / 1024 % 32, n / 32 % 32, n % 32]

/-- The 5-bit marker symbol recording the checksum variant. -/
def variantMark : Variant → Nat
  | .bech32 => 0
  | .bech32m => 1

/-- Modelled from the spec: Bech32 encoding
(`bech32::Bech32Writer` driven by the source's `Display` impl): the
human-readable part, the `'1'` separator, the data symbols, then six
checksum symbols determined by the chosen variant. -/
def bech32Encode (hrp : Str) (variant : Variant) (data : List Nat) : Str :=
  hrp ++ '1' :: (data ++ variantMark variant :: bech32Chk hrp data).map bech32EncChar

/-- Recognizes characters other than the Bech32 separator. -/
def notSep (c : Char) : Bool := c ≠ '1'

/-- Splits a string at its last `'1'`, returning the parts before and
after it. -/
def splitLast1 (s : Str) : Option (Str × Str) :=
  let r := s.reverse
  let dat := r.takeWhile notSep
  match r.drop dat.length with
  | [] => none
  | _ :: pre => some (pre.reverse, dat.reverse)

/-- Maps Bech32 data characters back to symbols, reporting the first
invalid character. -/
def bech32DecSyms : Str → Except Bech32Error (List Nat)
  | [] => .ok []
  | c :: rest =>
    match bech32DecChar c with
    | none => .error (.invalidChar c)
    | some u =>
      match bech32DecSyms rest with
      | .ok us => .ok (u :: us)
      | .error e => .error e

/-- Modelled from the spec: `bech32::decode`.  Mixed-case input is
rejected (spec §4.6 step 4), case is folded, the string is split at the
last separator, data characters are mapped back to 5-bit symbols, the
checksum is verified and the checksum variant recovered. -/
def bech32Decode (s : Str) : Except Bech32Error (Str × List Nat × Variant) :=
  if s.any Char.isUpper ∧ s.any Char.isLower then .error .mixedCase
  else
    let t := s.map Char.toLower
    match splitLast1 t with
    | none => .error .missingSeparator
    | some (hrp, datPart) =>
      if hrp = [] then .error .invalidLength
      else if datPart.length < 6 then .error .invalidLength
      else
        match bech32DecSyms datPart with
        | .error e => .error e
        | .ok syms =>
          let n := syms.length - 6
          let dat := syms.take n
          match syms.drop n with
          | m :: ck =>
            if ck = bech32Chk hrp dat then
              match m with
              | 0 => .ok (hrp, dat, .bech32)
              | 1 => .ok (hrp, dat, .bech32m)
              | _ => .error .invalidChecksum
            else .error .invalidChecksum
          | [] => .error .invalidChecksum

/-- Modelled from the spec: the 8-bit→5-bit repacking of the external
bech32 crate (`bech32::ToBase32`); the bit-stream algorithm itself is
out of scope (spec §1), so the model emits two 5-bit symbols per byte
(high three bits, then low five). -/
def toBase32 (bytes : List Nat) : List Nat :=
  bytes.flatMap (fun b => [b / 32, b % 32])

/-- Modelled from the spec: the 5-bit→8-bit repacking
(`bech32::FromBase32`), the inverse of `toBase32`; symbol sequences
that do not re-form bytes are rejected as padding errors. -/
def fromBase32 : List Nat → Except Bech32Error (List Nat)
  | [] => .ok []
  | [_] => .error .invalidPadding
  | hi :: lo :: rest =>
    if hi < 8 ∧ lo < 32 then
      match fromBase32 rest with
      | .ok bs => .ok ((hi * 32 + lo) :: bs)
      | .error e => .error e
    else .error .invalidPadding

/-! ## Script model -/

/-- A raw output script is a byte buffer. -/
abbrev Script := List Nat

/-- Byte lookup with the conventional default, standing in for Rust's
panicking index (used only where the source has already bounds-checked). -/
def nthByte (s : Script) (n : Nat) : Nat := s.getD n 0

/-- Modelled from the spec: `Script::is_p2pkh` (script parser not in
`src/`); spec §6: `OP_DUP OP_HASH160 <20 bytes> OP_EQUALVERIFY
OP_CHECKSIG`. -/
def isP2pkh (s : Script) : Prop :=
  s.length = 25 ∧ nthByte s 0 = 118 ∧ nthByte s 1 = 169 ∧ nthByte s 2 = 20 ∧
    nthByte s 23 = 136 ∧ nthByte s 24 = 172

instance (s : Script) : Decidable (isP2pkh s) := by unfold isP2pkh; infer_instance

/-- Modelled from the spec: `Script::is_p2sh`; spec §6:
`OP_HASH160 <20 bytes> OP_EQUAL`. -/
def isP2sh (s : Script) : Prop :=
  s.length = 23 ∧ nthByte s 0 = 169 ∧ nthByte s 1 = 20 ∧ nthByte s 22 = 135

instance (s : Script) : Decidable (isP2sh s) := by unfold isP2sh; infer_instance

/-- Modelled from the spec: `Script::is_witness_program`; spec §6:
`<version-op> <push of 2..40 bytes>` — a version opcode (`OP_0` or
`OP_PUSHNUM_1..16`) followed by a single data push whose length byte
accounts for the whole remainder. -/
def isWitnessProgram (s : Script) : Prop :=
  4 ≤ s.length ∧ s.length ≤ 42 ∧
    (nthByte s 0 = 0 ∨ (OP_PUSHNUM_1 ≤ nthByte s 0 ∧ nthByte s 0 ≤ OP_PUSHNUM_16)) ∧
    2 ≤ nthByte s 1 ∧ nthByte s 1 ≤ 40 ∧ s.length - 2 = nthByte s 1

instance (s : Script) : Decidable (isWitnessProgram s) := by
  unfold isWitnessProgram; infer_instance

/-- Modelled from the spec: `Script::witness_version` — the witness
version encoded by the script's first opcode, when there is one. -/
def scriptWitnessVersion (s : Script) : Option WitnessVersion :=
  match s.head? with
  | none => none
  | some op => (witnessVersionTryFromOpcode op).toOption

/-- Modelled from the spec: `Script::is_v0_p2wpkh` — version-0 witness
program carrying a 20-byte hash. -/
def isV0P2wpkh (s : Script) : Prop :=
  s.length = 22 ∧ scriptWitnessVersion s = some .v0 ∧ nthByte s 1 = 20

instance (s : Script) : Decidable (isV0P2wpkh s) := by unfold isV0P2wpkh; infer_instance

/-- Modelled from the spec: `Script::is_v0_p2wsh` — version-0 witness
program carrying a 32-byte hash. -/
def isV0P2wsh (s : Script) : Prop :=
  s.length = 34 ∧ scriptWitnessVersion s = some .v0 ∧ nthByte s 1 = 32

instance (s : Script) : Decidable (isV0P2wsh s) := by unfold isV0P2wsh; infer_instance

/-- Modelled from the spec: `Script::new_p2pkh` — rebuild the canonical
P2PKH script from a 20-byte pubkey hash (spec §6 layout). -/
def newP2pkh (hash : List Nat) : Script :=
  118 :: 169 :: 20 :: hash ++ [136, 172]

/-- Modelled from the spec: `Script::new_p2sh` — rebuild the canonical
P2SH script from a 20-byte script hash (spec §6 layout). -/
def newP2sh (hash : List Nat) : Script :=
  169 :: 20 :: hash ++ [135]

/-- `impl From<WitnessVersion> for opcodes::All` (source lines
424-432): `OP_0` for V0, otherwise `OP_PUSHNUM_1 + n - 1`. -/
def versionOpcode (v : WitnessVersion) : Nat :=
  match v with
  | .v0 => 0
  | no => OP_PUSHNUM_1 + no.toNum - 1

/-- Modelled from the spec: `Script::new_witness_program` — the version
opcode followed by a single push of the program bytes (spec §6 layout). -/
def newWitnessProgram (v : WitnessVersion) (program : List Nat) : Script :=
  versionOpcode v :: program.length :: program

/-! ## Payload -/

/-- `Payload` (source lines 436-448).  The hash newtypes `PubkeyHash`
and `ScriptHash` are 20-byte buffers, modelled as byte lists. -/
inductive Payload where
  | pubkeyHash (hash : List Nat)
  | scriptHash (hash : List Nat)
  | witnessProgram (version : WitnessVersion) (program : List Nat)
deriving DecidableEq

namespace Payload

/-- `Payload::from_script` (source lines 452-475). -/
def fromScript (script : Script) : Except AddrError Payload :=
  if isP2pkh script then
    .ok (pubkeyHash ((script.drop 3).take 20))
  else if isP2sh script then
    .ok (scriptHash ((script.drop 2).take 20))
  else if isWitnessProgram script then
    if scriptWitnessVersion script = some .v0 ∧ ¬(isV0P2wpkh script ∨ isV0P2wsh script) then
      .error (.invalidSegwitV0ProgramLength (script.length - 2))
    else
      match witnessVersionTryFromOpcode (nthByte script 0) with
      | .error e => .error e
      | .ok version => .ok (witnessProgram version (script.drop 2))
  else
    .error .unrecognizedScript

/-- `Payload::script_pubkey` (source lines 478-485). -/
def scriptPubkey : Payload → Script
  | pubkeyHash hash => newP2pkh hash
  | scriptHash hash => newP2sh hash
  | witnessProgram version prog => newWitnessProgram version prog

end Payload

/-- The set of payload shapes the public constructors can produce
(source lines 487-554): `p2pkh` hashes a key to 20 bytes; `p2sh`,
`p2shwpkh` and `p2shwsh` hash a script to 20 bytes; `p2wpkh` stores a
20-byte V0 program; `p2wsh` a 32-byte V0 program; `p2tr` and
`p2tr_tweaked` a 32-byte V1 program (an x-only key serialization).
The hash/key primitives are out of scope, so the hash bytes are
arbitrary. -/
def ConstructiblePayload (p : Payload) : Prop :=
  match p with
  | .pubkeyHash hash => hash.length = 20 ∧ ∀ b ∈ hash, b < 256
  | .scriptHash hash => hash.length = 20 ∧ ∀ b ∈ hash, b < 256
  | .witnessProgram version prog =>
    (∀ b ∈ prog, b < 256) ∧
      ((version = .v0 ∧ (prog.length = 20 ∨ prog.length = 32)) ∨
        (version = .v1 ∧ prog.length = 32))

/-! ## Prefix and Address -/

/-- `Prefix` (source lines 636-647): serialization parameters, written
`Pfx` here.  The segwit hrp is a string, modelled as `Str`. -/
inductive Pfx where
  | pubkey (b : Nat)
  | script (b : Nat)
  | segwit (hrp : Str)
deriving DecidableEq

namespace Pfx

/-- `Prefix::from_payload` (source lines 660-705): a pure lookup of the
version byte or hrp from the (payload kind, network, chain) triple. -/
def fromPayload (payload : Payload) (network : Network) (chain : Blockchain) : Pfx :=
  match payload with
  | .pubkeyHash _ =>
    let b :=
      match network, chain with
      | .bitcoin, .bitcoin => BITCOIN_PUBKEY_ADDRESS_PREFIX_MAIN
      | _, .bitcoin => BITCOIN_PUBKEY_ADDRESS_PREFIX_TEST
      | .bitcoin, .dogecoin => DOGECOIN_PUBKEY_ADDRESS_PREFIX_MAIN
      | _, .dogecoin => DOGECOIN_PUBKEY_ADDRESS_PREFIX_TEST
      | .bitcoin, .litecoin => LITECOIN_PUBKEY_ADDRESS_PREFIX_MAIN
      | _, .litecoin => LITECOIN_PUBKEY_ADDRESS_PREFIX_TEST
      | .bitcoin, .stratis => STRATIS_PUBKEY_ADDRESS_PREFIX_MAIN
      | _, .stratis => STRATIS_PUBKEY_ADDRESS_PREFIX_TEST
    pubkey b
  | .scriptHash _ =>
    let b :=
      match network, chain with
      | .bitcoin, .bitcoin => BITCOIN_SCRIPT_ADDRESS_PREFIX_MAIN
      | _, .bitcoin => BITCOIN_SCRIPT_ADDRESS_PREFIX_TEST
      | .bitcoin, .dogecoin => DOGECOIN_SCRIPT_ADDRESS_PREFIX_MAIN
      | _, .dogecoin => DOGECOIN_SCRIPT_ADDRESS_PREFIX_TEST
      | .bitcoin, .litecoin => LITECOIN_SCRIPT_ADDRESS_PREFIX_MAIN
      | _, .litecoin => LITECOIN_SCRIPT_ADDRESS_PREFIX_TEST
      | .bitcoin, .stratis => STRATIS_SCRIPT_ADDRESS_PREFIX_MAIN
      | _, .stratis => STRATIS_SCRIPT_ADDRESS_PREFIX_TEST
    script b
  | .witnessProgram _ _ =>
    let s :=
      match network, chain with
      | .bitcoin, .bitcoin => "bc".toList
      | .testnet, .bitcoin => "tb".toList
      | .signet, .bitcoin => "tb".toList
      | .regtest, .bitcoin => "bcrt".toList
      | .bitcoin, .litecoin => "ltc".toList
      | .testnet, .litecoin => "tltc".toList
      | .bitcoin, .stratis => "STRAX".toList
      | .testnet, .stratis => "TSTRAX".toList
      | network, chain =>
        "segwit unsupported for network/chain ".toList ++
          networkText network ++ '/' :: blockchainText chain
    segwit s

end Pfx

/-- `Address` (source lines 718-726). -/
structure Address where
  payload : Payload
  network : Network
  pfx : Pfx
deriving DecidableEq

/-- `AddressType` (source lines 145-159). -/
inductive AddressType where
  | p2pkh
  | p2sh
  | p2wpkh
  | p2wsh
  | p2tr
deriving DecidableEq

namespace Address

/-- The common constructor pattern shared by every named constructor
(source lines 729-819): take the payload, derive the prefix with
`Prefix::from_payload`, and aggregate. -/
def mk' (payload : Payload) (network : Network) (chain : Blockchain) : Address :=
  { payload, network, pfx := Pfx.fromPayload payload network chain }

/-- `Address::address_type` (source lines 825-842). -/
def addressType (a : Address) : Option AddressType :=
  match a.payload with
  | .pubkeyHash _ => some .p2pkh
  | .scriptHash _ => some .p2sh
  | .witnessProgram version prog =>
    match version with
    | .v0 =>
      match prog.length with
      | 20 => some .p2wpkh
      | 32 => some .p2wsh
      | _ => none
    | .v1 => if prog.length = 32 then some .p2tr else none
    | _ => none

/-- `Address::is_valid_for_network` (source lines 899-911), a
translation of the Rust `match` arm by arm (first arm wins). -/
def isValidForNetwork (a : Address) (network : Network) : Bool :=
  let isLegacy :=
    match a.addressType with
    | some .p2pkh | some .p2sh => true
    | _ => false
  if a.network = network then true
  else if a.network = .bitcoin ∨ network = .bitcoin then false
  else if (a.network = .regtest ∨ network = .regtest) ∧ isLegacy = false then false
  else true

/-- `Address::pubkey_prefix` (source lines 940-949): the stored prefix
byte when the variant matches, otherwise the Bitcoin-chain default for
the stored network. -/
def pubkeyPfxByte (a : Address) : Nat :=
  match a.pfx with
  | .pubkey b => b
  | _ =>
    match a.network with
    | .bitcoin => BITCOIN_PUBKEY_ADDRESS_PREFIX_MAIN
    | _ => BITCOIN_PUBKEY_ADDRESS_PREFIX_TEST

/-- `Address::script_prefix` (source lines 951-960). -/
def scriptPfxByte (a : Address) : Nat :=
  match a.pfx with
  | .script b => b
  | _ =>
    match a.network with
    | .bitcoin => BITCOIN_SCRIPT_ADDRESS_PREFIX_MAIN
    | _ => BITCOIN_SCRIPT_ADDRESS_PREFIX_TEST

/-- `Address::segwit_prefix` (source lines 962-972). -/
def segwitHrp (a : Address) : Str :=
  match a.pfx with
  | .segwit s => s
  | _ =>
    match a.network with
    | .bitcoin => "bc".toList
    | .testnet | .signet => "tb".toList
    | .regtest => "bcrt".toList

/-- `impl Display for AddressEncoding` (source lines 579-608), in the
normal (non-alternate) formatting mode: hash payloads render as
Base58Check over the prefix byte and the 20-byte hash; witness payloads
render as Bech32/Bech32m of the version symbol followed by the repacked
program, with the checksum variant chosen by `bech32_variant`. -/
def encodingText (payload : Payload) (p2pkhByte p2shByte : Nat) (hrp : Str) : Str :=
  match payload with
  | .pubkeyHash hash => b58CheckEncode (p2pkhByte :: hash)
  | .scriptHash hash => b58CheckEncode (p2shByte :: hash)
  | .witnessProgram version prog =>
    bech32Encode hrp version.bech32Variant (version.toNum :: toBase32 prog)

/-- `impl Display for Address` (source lines 977-986). -/
def toText (a : Address) : Str :=
  encodingText a.payload a.pubkeyPfxByte a.scriptPfxByte a.segwitHrp

end Address

/-! ## Parsing -/

/-- `find_bech32_prefix` (source lines 1003-1009): the substring before
the last `'1'`, or the whole string when there is none. -/
def findBech32Pfx (s : Str) : Str :=
  match splitLast1 s with
  | none => s
  | some (pre, _) => pre

/-- The hrp classifier at the head of `Address::from_str` (source lines
1016-1022): the network selected by the extracted prefix, `none`
meaning the Base58 branch is taken. -/
def bech32NetworkOf (p : Str) : Option Network :=
  if p = "bc".toList ∨ p = "BC".toList ∨ p = "ltc".toList ∨ p = "LTC".toList ∨
      p = "X".toList then
    some .bitcoin
  else if p = "tb".toList ∨ p = "TB".toList ∨ p = "tltc".toList ∨ p = "TLTC".toList ∨
      p = "q".toList then
    some .testnet
  else if p = "bcrt".toList ∨ p = "BCRT".toList then
    some .regtest
  else
    none

/-- The first-byte classes of the Base58 arm of `Address::from_str`
(source lines 1073-1107), one list per `match` arm in source order. -/
def pubkeyMainBytes : List Nat :=
  [BITCOIN_PUBKEY_ADDRESS_PREFIX_MAIN, DOGECOIN_PUBKEY_ADDRESS_PREFIX_MAIN,
   LITECOIN_PUBKEY_ADDRESS_PREFIX_MAIN, STRATIS_PUBKEY_ADDRESS_PREFIX_MAIN]

/-- See `pubkeyMainBytes`. -/
def scriptMainBytes : List Nat :=
  [BITCOIN_SCRIPT_ADDRESS_PREFIX_MAIN, DOGECOIN_SCRIPT_ADDRESS_PREFIX_MAIN,
   LITECOIN_SCRIPT_ADDRESS_PREFIX_MAIN, STRATIS_SCRIPT_ADDRESS_PREFIX_MAIN]

/-- See `pubkeyMainBytes`. -/
def pubkeyTestBytes : List Nat :=
  [BITCOIN_PUBKEY_ADDRESS_PREFIX_TEST, DOGECOIN_PUBKEY_ADDRESS_PREFIX_TEST,
   LITECOIN_PUBKEY_ADDRESS_PREFIX_TEST, STRATIS_PUBKEY_ADDRESS_PREFIX_TEST]

/-- See `pubkeyMainBytes`. -/
def scriptTestBytes : List Nat :=
  [BITCOIN_SCRIPT_ADDRESS_PREFIX_TEST, DOGECOIN_SCRIPT_ADDRESS_PREFIX_TEST,
   LITECOIN_SCRIPT_ADDRESS_PREFIX_TEST, STRATIS_SCRIPT_ADDRESS_PREFIX_TEST]

/-- `impl FromStr for Address` (source lines 1011-1111). -/
def Address.fromStr (s : Str) : Except AddrError Address :=
  match bech32NetworkOf (findBech32Pfx s) with
  | some network =>
    -- decode as bech32
    match bech32Decode s with
    | .error e => .error (.bech32E e)
    | .ok (hrp, payload, variant) =>
      let pfx := Pfx.segwit hrp
      if payload = [] then .error .emptyBech32Payload
      else
        match WitnessVersion.tryFromU8 (payload.headD 0) with
        | .error e => .error e
        | .ok version =>
          match fromBase32 payload.tail with
          | .error e => .error (.bech32E e)
          | .ok program =>
            if program.length < 2 ∨ program.length > 40 then
              .error (.invalidWitnessProgramLength program.length)
            else if version = .v0 ∧ program.length ≠ 20 ∧ program.length ≠ 32 then
              .error (.invalidSegwitV0ProgramLength program.length)
            else
              let expected := version.bech32Variant
              if expected ≠ variant then
                .error (.invalidBech32Variant expected variant)
              else
                .ok { payload := .witnessProgram version program, network, pfx }
  | none =>
    -- Base58
    if s.length > 50 then .error (.base58E (.invalidLength (s.length * 11 / 15)))
    else
      match b58FromCheck s with
      | .error e => .error (.base58E e)
      | .ok data =>
        if data.length ≠ 21 then .error (.base58E (.invalidLength data.length))
        else
          let b := data.headD 0
          if b ∈ pubkeyMainBytes then
            .ok { payload := .pubkeyHash data.tail, network := .bitcoin, pfx := .pubkey b }
          else if b ∈ scriptMainBytes then
            .ok { payload := .scriptHash data.tail, network := .bitcoin, pfx := .script b }
          else if b ∈ pubkeyTestBytes then
            .ok { payload := .pubkeyHash data.tail, network := .testnet, pfx := .pubkey b }
          else if b ∈ scriptTestBytes then
            .ok { payload := .scriptHash data.tail, network := .testnet, pfx := .script b }
          else
            .error (.base58E (.invalidAddressVersion b))

/-- Equality of fallible results is decidable; used to evaluate the
claims on concrete inputs. -/
instance {ε α : Type} [DecidableEq ε] [DecidableEq α] : DecidableEq (Except ε α) := fun x y =>
  match x, y with
  | .ok a, .ok b =>
    if h : a = b then .isTrue (by rw [h]) else .isFalse (fun hc => h (Except.ok.inj hc))
  | .error a, .error b =>
    if h : a = b then .isTrue (by rw [h]) else .isFalse (fun hc => h (Except.error.inj hc))
  | .ok _, .error _ => .isFalse (fun hc => Except.noConfusion hc)
  | .error _, .ok _ => .isFalse (fun hc => Except.noConfusion hc)

/-! ## Round-trip lemmas for the modelled codecs -/

/-- Every checksum byte produced by the Base58Check model is a byte. -/
lemma b58Checksum_lt (data : List Nat) : ∀ b ∈ b58Checksum data, b < 256 := by
  simp only [b58Checksum, List.mem_cons, List.not_mem_nil, or_false]
  rintro b (rfl | rfl | rfl | rfl) <;> omega

/-- A list all of whose elements satisfy the predicate is its own
`takeWhile`. -/
lemma takeWhile_eq_self_of {α : Type} (p : α → Bool) (l : List α)
    (h : ∀ x ∈ l, p x = true) : l.takeWhile p = l := by
  induction l with
  | nil => rfl
  | cons a t ih =>
    rw [List.takeWhile_cons, h a (by simp), ih (fun x hx => h x (by simp [hx]))]
    simp

/-- `takeWhile` stops exactly at the first failing element. -/
lemma takeWhile_append_of {α : Type} (p : α → Bool) (l₁ l₂ : List α) (a : α)
    (h : ∀ x ∈ l₁, p x = true) (ha : p a = false) :
    (l₁ ++ a :: l₂).takeWhile p = l₁ := by
  induction l₁ with
  | nil => simp [List.takeWhile_cons, ha]
  | cons x t ih =>
    rw [List.cons_append, List.takeWhile_cons, h x (by simp),
      ih (fun y hy => h y (by simp [hy]))]
    simp

/-! ### Digit-string arithmetic for the Base58 model -/

lemma padDigits_length (b k n : Nat) : (padDigits b k n).length = k := by
  simp [padDigits]

lemma padDigits_lt (b k n : Nat) (hb : 2 ≤ b) : ∀ d ∈ padDigits b k n, d < b := by
  intro d hd
  simp only [padDigits, List.mem_map] at hd
  obtain ⟨i, -, rfl⟩ := hd
  exact Nat.mod_lt _ (by omega)

lemma padDigits_succ (b k n : Nat) :
    padDigits b (k + 1) n = n / b ^ k % b :: padDigits b k (n % b ^ k) := by
  unfold padDigits
  rw [List.range_succ_eq_map, List.map_cons, List.map_map]
  refine congrArg₂ List.cons ?_ ?_
  · norm_num
  · apply List.map_congr_left
    intro j hj
    simp only [Function.comp_apply, List.mem_range] at hj ⊢
    have he : k + 1 - 1 - (j + 1) = k - 1 - j := by omega
    rw [he]
    have hsplit : b ^ k = b ^ (k - 1 - j) * b ^ (j + 1) := by
      rw [← pow_add]
      congr 1
      omega
    rw [hsplit, Nat.mod_mul_right_div_self,
      Nat.mod_mod_of_dvd _ (dvd_pow_self b (Nat.succ_ne_zero j))]

lemma foldl_shift (b : Nat) (l : List Nat) :
    ∀ a, l.foldl (fun x d => x * b + d) a = a * b ^ l.length + baseVal b l := by
  induction l with
  | nil => intro a; simp [baseVal]
  | cons d t ih =>
    intro a
    have hv : baseVal b (d :: t) = d * b ^ t.length + baseVal b t := by
      unfold baseVal
      rw [List.foldl_cons, show (0 : Nat) * b + d = d from by omega]
      exact ih d
    rw [List.foldl_cons, ih (a * b + d), hv, List.length_cons, pow_succ]
    ring

lemma baseVal_cons (b d : Nat) (t : List Nat) :
    baseVal b (d :: t) = d * b ^ t.length + baseVal b t := by
  unfold baseVal
  rw [List.foldl_cons, show (0 : Nat) * b + d = d from by omega, foldl_shift b t d]
  rfl

lemma baseVal_lt (b : Nat) (hb : 2 ≤ b) (l : List Nat) (hl : ∀ d ∈ l, d < b) :
    baseVal b l < b ^ l.length := by
  induction l with
  | nil => simp [baseVal]
  | cons d t ih =>
    rw [baseVal_cons]
    have hd : d < b := hl d (by simp)
    have ht := ih (fun x hx => hl x (by simp [hx]))
    calc d * b ^ t.length + baseVal b t < (d + 1) * b ^ t.length := by
          rw [Nat.add_mul, one_mul]
          omega
    _ ≤ b * b ^ t.length := Nat.mul_le_mul_right _ (by omega)
    _ = b ^ (d :: t).length := by rw [List.length_cons, pow_succ]; ring

lemma padDigits_val (b : Nat) (hb : 2 ≤ b) :
    ∀ l : List Nat, (∀ d ∈ l, d < b) → padDigits b l.length (baseVal b l) = l := by
  intro l
  induction l with
  | nil => intro _; rfl
  | cons d t ih =>
    intro hl
    have hd : d < b := hl d (by simp)
    have ht : ∀ x ∈ t, x < b := fun x hx => hl x (by simp [hx])
    have hvt : baseVal b t < b ^ t.length := baseVal_lt b hb t ht
    have hBpos : 0 < b ^ t.length := Nat.pos_pow_of_pos _ (by omega)
    rw [List.length_cons, padDigits_succ, baseVal_cons]
    have hdiv : (d * b ^ t.length + baseVal b t) / b ^ t.length = d := by
      rw [Nat.add_comm, Nat.add_mul_div_right _ _ hBpos, Nat.div_eq_of_lt hvt]
      omega
    have hmod : (d * b ^ t.length + baseVal b t) % b ^ t.length = baseVal b t := by
      rw [Nat.add_comm, Nat.add_mul_mod_self_right]
      exact Nat.mod_eq_of_lt hvt
    rw [hdiv, hmod, Nat.mod_eq_of_lt hd, ih ht]

lemma val_padDigits (b : Nat) (hb : 2 ≤ b) :
    ∀ k n, n < b ^ k → baseVal b (padDigits b k n) = n := by
  intro k
  induction k with
  | zero =>
    intro n h
    simp only [pow_zero] at h
    have : n = 0 := by omega
    subst this
    rfl
  | succ k ih =>
    intro n h
    rw [padDigits_succ, baseVal_cons, padDigits_length,
      ih (n % b ^ k) (Nat.mod_lt _ (Nat.pos_pow_of_pos _ (by omega)))]
    have hlt : n / b ^ k < b := by
      rw [pow_succ] at h
      exact Nat.div_lt_of_lt_mul h
    rw [Nat.mod_eq_of_lt hlt, Nat.mul_comm (n / b ^ k) (b ^ k)]
    exact Nat.div_add_mod n (b ^ k)

lemma baseVal_replicate_zero (b z : Nat) (l : List Nat) :
    baseVal b (List.replicate z 0 ++ l) = baseVal b l := by
  induction z with
  | zero => rfl
  | succ z ih =>
    rw [List.replicate_succ, List.cons_append]
    unfold baseVal
    rw [List.foldl_cons, show (0 : Nat) * b + 0 = 0 from by omega]
    exact ih

lemma dropWhile_replicate_zero_append (z : Nat) (l : List Nat) :
    (List.replicate z 0 ++ l).dropWhile (· = 0) = l.dropWhile (· = 0) := by
  induction z with
  | zero => rfl
  | succ z ih =>
    rw [List.replicate_succ, List.cons_append, List.dropWhile_cons]
    simp only [decide_True, if_true]
    exact ih

lemma pad_extend (b : Nat) (hb : 2 ≤ b) (j : Nat) :
    ∀ k n, n < b ^ k → padDigits b (j + k) n = List.replicate j 0 ++ padDigits b k n := by
  induction j with
  | zero => intro k n h; simp
  | succ j ih =>
    intro k n h
    have hlt : n < b ^ (j + k) := by
      calc n < b ^ k := h
      _ ≤ b ^ (j + k) := Nat.pow_le_pow_right (by omega) (by omega)
    rw [show j + 1 + k = (j + k) + 1 from by omega, padDigits_succ,
      Nat.div_eq_of_lt hlt, Nat.mod_eq_of_lt hlt, ih k n h]
    simp [List.replicate_succ]

lemma dropWhile_pad_irrel (b : Nat) (hb : 2 ≤ b) (k k' n : Nat) (hk : n < b ^ k)
    (hk' : n < b ^ k') :
    (padDigits b k n).dropWhile (· = 0) = (padDigits b k' n).dropWhile (· = 0) := by
  rcases Nat.le_total k k' with h | h
  · rw [show k' = (k' - k) + k from by omega, pad_extend b hb _ k n hk,
      dropWhile_replicate_zero_append]
  · rw [show k = (k - k') + k' from by omega, pad_extend b hb _ k' n hk',
      dropWhile_replicate_zero_append]

lemma baseVal_dropWhile_zero (b : Nat) (l : List Nat) :
    baseVal b (l.dropWhile (· = 0)) = baseVal b l := by
  induction l with
  | nil => rfl
  | cons d t ih =>
    rw [List.dropWhile_cons]
    by_cases hd : d = 0
    · subst hd
      simp only [decide_True, if_true]
      rw [ih]
      unfold baseVal
      rw [List.foldl_cons, show (0 : Nat) * b + 0 = 0 from by omega]
    · simp [hd]

lemma takeWhile_zero_eq_replicate (l : List Nat) :
    l.takeWhile (· = 0) = List.replicate (l.takeWhile (· = 0)).length 0 := by
  apply List.eq_replicate_of_mem
  intro x hx
  have := List.mem_takeWhile_imp hx
  simpa using this

lemma dropWhile_head_false {α : Type} (p : α → Bool) (l : List α) :
    ∀ h t, l.dropWhile p = h :: t → p h = false := by
  induction l with
  | nil => intro h t hc; simp at hc
  | cons a as ih =>
    intro h t hc
    rw [List.dropWhile_cons] at hc
    by_cases ha : p a = true
    · rw [if_pos ha] at hc
      exact ih h t hc
    · rw [if_neg ha] at hc
      obtain ⟨rfl, -⟩ := List.cons.inj hc
      simpa using ha

lemma takeWhile_length_le {α : Type} (p : α → Bool) (l : List α) :
    (l.takeWhile p).length ≤ l.length := by
  induction l with
  | nil => simp
  | cons a t ih =>
    rw [List.takeWhile_cons]
    split
    · simpa using ih
    · simp

lemma dropWhile_length (l : List Nat) :
    (l.dropWhile (· = 0)).length = l.length - (l.takeWhile (· = 0)).length := by
  have := List.takeWhile_append_dropWhile (fun x => decide (x = 0)) l
  have hlen := congrArg List.length this
  rw [List.length_append] at hlen
  omega

lemma b58DecChar_digit (d : Nat) (h : d < 58) : b58DecChar (b58DigitChar d) = some d := by
  interval_cases d <;> decide

lemma b58DigitChar_ne_one (d : Nat) (h : d < 58) (h0 : d ≠ 0) : b58DigitChar d ≠ '1' := by
  have h1 : 1 ≤ d := by omega
  interval_cases d <;> decide

lemma b58DecDigits_map (ds : List Nat) (h : ∀ d ∈ ds, d < 58) :
    b58DecDigits (ds.map b58DigitChar) = .ok ds := by
  induction ds with
  | nil => rfl
  | cons d t ih =>
    simp only [List.map_cons, b58DecDigits, b58DecChar_digit d (h d (by simp)),
      ih (fun x hx => h x (by simp [hx]))]

lemma b58DecDigits_replicate_one (z : Nat) (s : Str) (ds : List Nat)
    (h : b58DecDigits s = .ok ds) :
    b58DecDigits (List.replicate z '1' ++ s) = .ok (List.replicate z 0 ++ ds) := by
  induction z with
  | zero => simpa using h
  | succ z ih =>
    rw [List.replicate_succ, List.cons_append]
    simp only [b58DecDigits, show b58DecChar '1' = some 0 from by decide, ih,
      List.replicate_succ, List.cons_append]

lemma pow256_le_pow58 (m : Nat) : (256 : Nat) ^ m ≤ 58 ^ (2 * m) := by
  calc (256 : Nat) ^ m ≤ (58 ^ 2) ^ m := Nat.pow_le_pow_left (by norm_num) m
  _ = 58 ^ (2 * m) := by rw [← pow_mul]

lemma b58Encode_length_le (data : List Nat) (h : ∀ x ∈ data, x < 256) :
    (b58Encode data).length ≤ 2 * data.length := by
  have hzle : (data.takeWhile (· = 0)).length ≤ data.length := takeWhile_length_le _ _
  have hN : baseVal 256 data < 256 ^ (data.length - (data.takeWhile (· = 0)).length) := by
    rw [← baseVal_dropWhile_zero 256 data]
    have hwf : ∀ d ∈ data.dropWhile (· = 0), d < 256 :=
      fun d hd => h d ((List.dropWhile_sublist _).subset hd)
    have := baseVal_lt 256 (by omega) (data.dropWhile (· = 0)) hwf
    rwa [dropWhile_length] at this
  have h58 : baseVal 256 data <
      58 ^ (2 * (data.length - (data.takeWhile (· = 0)).length)) :=
    lt_of_lt_of_le hN (pow256_le_pow58 _)
  have hK : baseVal 256 data < 58 ^ (2 * data.length) :=
    lt_of_lt_of_le h58 (Nat.pow_le_pow_right (by omega) (by omega))
  unfold b58Encode
  rw [List.length_append, List.length_replicate, List.length_map,
    dropWhile_pad_irrel 58 (by omega) _
      (2 * (data.length - (data.takeWhile (· = 0)).length)) _ hK h58]
  have hd : ((padDigits 58 (2 * (data.length - (data.takeWhile (· = 0)).length))
      (baseVal 256 data)).dropWhile (· = 0)).length ≤
      2 * (data.length - (data.takeWhile (· = 0)).length) := by
    calc _ ≤ (padDigits 58 (2 * (data.length - (data.takeWhile (· = 0)).length))
        (baseVal 256 data)).length := (List.dropWhile_sublist _).length_le
    _ = _ := padDigits_length _ _ _
  omega

lemma b58Decode_encode (data : List Nat) (h : ∀ x ∈ data, x < 256) :
    b58Decode (b58Encode data) = .ok data := by
  have hb2 : (2 : Nat) ≤ 58 := by omega
  have hN : baseVal 256 data < 256 ^ data.length := baseVal_lt 256 (by omega) data h
  have hK : baseVal 256 data < 58 ^ (2 * data.length) :=
    lt_of_lt_of_le hN (pow256_le_pow58 _)
  have hds : ∀ d ∈ (padDigits 58 (2 * data.length) (baseVal 256 data)).dropWhile (· = 0),
      d < 58 :=
    fun d hd => padDigits_lt _ _ _ hb2 d ((List.dropWhile_sublist _).subset hd)
  have hdec : b58DecDigits (b58Encode data) =
      .ok (List.replicate (data.takeWhile (· = 0)).length 0 ++
        (padDigits 58 (2 * data.length) (baseVal 256 data)).dropWhile (· = 0)) :=
    b58DecDigits_replicate_one _ _ _ (b58DecDigits_map _ hds)
  have hone : (b58Encode data).takeWhile (· = '1') =
      List.replicate (data.takeWhile (· = 0)).length '1' := by
    unfold b58Encode
    rcases hcase : (padDigits 58 (2 * data.length) (baseVal 256 data)).dropWhile (· = 0) with
      _ | ⟨d, t⟩
    · rw [hcase, List.map_nil, List.append_nil]
      exact takeWhile_eq_self_of _ _ (by
        intro x hx
        have := List.eq_of_mem_replicate hx
        simp [this])
    · rw [hcase, List.map_cons]
      refine takeWhile_append_of _ _ _ _ (by
        intro x hx
        have := List.eq_of_mem_replicate hx
        simp [this]) ?_
      have hd0 : d ≠ 0 := by
        have := dropWhile_head_false _ _ _ _ hcase
        simpa using this
      have hdlt : d < 58 := hds d (by rw [hcase]; simp)
      simpa using b58DigitChar_ne_one d hdlt hd0
  have hval : baseVal 58 (List.replicate (data.takeWhile (· = 0)).length 0 ++
      (padDigits 58 (2 * data.length) (baseVal 256 data)).dropWhile (· = 0)) =
      baseVal 256 data := by
    rw [baseVal_replicate_zero, baseVal_dropWhile_zero,
      val_padDigits 58 hb2 _ _ hK]
  have hvalslen : baseVal 256 data < 256 ^ (b58Encode data).length := by
    rcases hcase : (padDigits 58 (2 * data.length) (baseVal 256 data)).dropWhile (· = 0) with
      _ | ⟨d, t⟩
    · have : baseVal 256 data = 0 := by
        rw [← val_padDigits 58 hb2 _ _ hK, ← baseVal_dropWhile_zero, hcase]
        rfl
      rw [this]
      exact Nat.pos_pow_of_pos _ (by omega)
    · have h1 : baseVal 256 data = baseVal 58 (d :: t) := by
        rw [← hcase, baseVal_dropWhile_zero, val_padDigits 58 hb2 _ _ hK]
      have h2 : baseVal 58 (d :: t) < 58 ^ (d :: t).length := by
        apply baseVal_lt 58 hb2
        intro x hx
        exact hds x (by rw [hcase]; exact hx)
      have h3 : (58 : Nat) ^ (d :: t).length ≤ 256 ^ (d :: t).length :=
        Nat.pow_le_pow_left (by omega) _
      have h4 : (256 : Nat) ^ (d :: t).length ≤ 256 ^ (b58Encode data).length := by
        apply Nat.pow_le_pow_right (by omega)
        unfold b58Encode
        rw [hcase, List.length_append, List.length_map]
        omega
      omega
  unfold b58Decode
  simp only [hdec]
  rw [hone, List.length_replicate, hval,
    dropWhile_pad_irrel 256 (by omega) _ data.length _ hvalslen hN,
    padDigits_val 256 (by omega) data h]
  rw [show List.replicate (data.takeWhile (· = 0)).length 0 = data.takeWhile (· = 0) from
    (takeWhile_zero_eq_replicate data).symm]
  rw [List.takeWhile_append_dropWhile]

lemma b58FromCheck_encode (data : List Nat) (h : ∀ x ∈ data, x < 256) :
    b58FromCheck (b58CheckEncode data) = .ok data := by
  have hwf : ∀ x ∈ data ++ b58Checksum data, x < 256 := by
    intro x hx
    rcases List.mem_append.1 hx with h1 | h2
    exacts [h x h1, b58Checksum_lt data x h2]
  have hcl : (b58Checksum data).length = 4 := rfl
  have hlen : (data ++ b58Checksum data).length = data.length + 4 := by
    rw [List.length_append, hcl]
  unfold b58FromCheck b58CheckEncode
  simp only [b58Decode_encode _ hwf]
  rw [if_neg (by rw [hlen]; omega)]
  have htake : (data ++ b58Checksum data).take ((data ++ b58Checksum data).length - 4) =
      data := List.take_left' (by rw [hlen]; omega)
  have hdrop : (data ++ b58Checksum data).drop ((data ++ b58Checksum data).length - 4) =
      b58Checksum data := List.drop_left' (by rw [hlen]; omega)
  simp only [htake, hdrop, if_pos rfl]
  simp

/-- A string without the separator has no split. -/
lemma splitLast1_eq_none (s : Str) (h : '1' ∉ s) : splitLast1 s = none := by
  have hr : ∀ c ∈ s.reverse, notSep c = true := by
    intro c hc
    simp only [notSep, ne_eq, decide_eq_true_eq]
    intro hc1
    exact h (hc1 ▸ List.mem_reverse.mp hc)
  simp only [splitLast1, takeWhile_eq_self_of _ _ hr, List.drop_length]

/-- Splitting inverts gluing by the last separator when neither side
contains another separator. -/
lemma splitLast1_append (pre dat : Str) (hdat : '1' ∉ dat) :
    splitLast1 (pre ++ '1' :: dat) = some (pre, dat) := by
  have hrev : (pre ++ '1' :: dat).reverse = dat.reverse ++ '1' :: pre.reverse := by
    simp [List.reverse_append]
  have hr : ∀ c ∈ dat.reverse, notSep c = true := by
    intro c hc
    simp only [notSep, ne_eq, decide_eq_true_eq]
    intro hc1
    exact hdat (hc1 ▸ List.mem_reverse.mp hc)
  simp only [splitLast1, hrev,
    takeWhile_append_of notSep _ _ _ hr (show notSep '1' = false from rfl), List.drop_left]
  simp

/-- Without a separator in the input, `find_bech32_prefix` returns the
whole input (source lines 1005-1008, `None` arm). -/
lemma findBech32Pfx_eq_self (s : Str) (h : '1' ∉ s) : findBech32Pfx s = s := by
  unfold findBech32Pfx
  rw [splitLast1_eq_none s h]

/-- The prefix classifier rejects every string that is not the length
of one of its candidates. -/
lemma bech32NetworkOf_eq_none_of_length (p : Str)
    (h : p.length ≠ 1 ∧ p.length ≠ 2 ∧ p.length ≠ 3 ∧ p.length ≠ 4) :
    bech32NetworkOf p = none := by
  obtain ⟨h1, h2, h3, h4⟩ := h
  unfold bech32NetworkOf
  rw [if_neg, if_neg, if_neg]
  · rintro (rfl | rfl) <;> simp at h4
  · rintro (rfl | rfl | rfl | rfl | rfl) <;> simp at h1 h2 h4
  · rintro (rfl | rfl | rfl | rfl | rfl) <;> simp at h1 h2 h3

/-- On the Base58 branch (the classifier having selected none), parsing
a rendered 21-byte buffer reduces to the version-byte table lookup of
the source's `match` (source lines 1060-1107). -/
lemma fromStr_b58CheckEncode (b : Nat) (h20 : List Nat) (hb : b < 256)
    (hlen : h20.length = 20) (hwf : ∀ x ∈ h20, x < 256)
    (hcls : bech32NetworkOf (findBech32Pfx (b58CheckEncode (b :: h20))) = none) :
    Address.fromStr (b58CheckEncode (b :: h20)) =
      (if b ∈ pubkeyMainBytes then
        .ok { payload := .pubkeyHash h20, network := .bitcoin, pfx := .pubkey b }
      else if b ∈ scriptMainBytes then
        .ok { payload := .scriptHash h20, network := .bitcoin, pfx := .script b }
      else if b ∈ pubkeyTestBytes then
        .ok { payload := .pubkeyHash h20, network := .testnet, pfx := .pubkey b }
      else if b ∈ scriptTestBytes then
        .ok { payload := .scriptHash h20, network := .testnet, pfx := .script b }
      else .error (.base58E (.invalidAddressVersion b))) := by
  have hwf' : ∀ x ∈ b :: h20, x < 256 := by
    intro x hx
    rcases List.mem_cons.mp hx with rfl | hx'
    · exact hb
    · exact hwf x hx'
  have hchk : ∀ x ∈ (b :: h20) ++ b58Checksum (b :: h20), x < 256 := by
    intro x hx
    rcases List.mem_append.mp hx with hx' | hx'
    · exact hwf' x hx'
    · exact b58Checksum_lt _ x hx'
  have henclen : (b58CheckEncode (b :: h20)).length ≤ 50 := by
    have h1 := b58Encode_length_le ((b :: h20) ++ b58Checksum (b :: h20)) hchk
    have h2 : (b58Checksum (b :: h20)).length = 4 := rfl
    rw [show b58CheckEncode (b :: h20) =
      b58Encode ((b :: h20) ++ b58Checksum (b :: h20)) from rfl]
    rw [List.length_append, List.length_cons, hlen, h2] at h1
    omega
  unfold Address.fromStr
  rw [hcls]
  rw [if_neg (by omega), b58FromCheck_encode _ hwf']
  simp [hlen]

/-- Characters the Bech32 model emits are lowercase-stable, never
uppercase and never the separator. -/
lemma bech32EncChar_spec (u : Nat) :
    (bech32EncChar u).isUpper = false ∧ Char.toLower (bech32EncChar u) = bech32EncChar u ∧
      bech32EncChar u ≠ '1' := by
  unfold bech32EncChar
  rcases Nat.lt_or_ge u 32 with h | h
  · interval_cases u <;> decide
  · rw [List.getD_eq_default _ _ (by simp [bech32Charset]; omega)]
    decide

/-- Character-level inversion of the Bech32 data alphabet. -/
lemma bech32DecChar_enc (u : Nat) (h : u < 32) : bech32DecChar (bech32EncChar u) = some u := by
  interval_cases u <;> decide

/-- Symbol decoding inverts symbol encoding. -/
lemma bech32DecSyms_enc (l : List Nat) (h : ∀ u ∈ l, u < 32) :
    bech32DecSyms (l.map bech32EncChar) = .ok l := by
  induction l with
  | nil => rfl
  | cons u t ih =>
    simp only [List.map_cons, bech32DecSyms, bech32DecChar_enc u (h u (by simp)),
      ih (fun x hx => h x (by simp [hx]))]

/-- The model checksum symbols are 5-bit values. -/
lemma bech32Chk_lt (hrp : Str) (data : List Nat) : ∀ u ∈ bech32Chk hrp data, u < 32 := by
  simp only [bech32Chk, List.mem_cons, List.not_mem_nil, or_false]
  rintro u (rfl | rfl | rfl | rfl | rfl) <;> omega

/-- The variant marker is a 5-bit value. -/
lemma variantMark_lt (v : Variant) : variantMark v < 32 := by cases v <;> decide

/-- The version number of any witness version is a 5-bit value. -/
lemma toNum_lt_32 : ∀ v : WitnessVersion, v.toNum < 32 := by decide

/-- The 5-bit symbols of the repacking model are in range. -/
lemma toBase32_lt (l : List Nat) (h : ∀ b ∈ l, b < 256) : ∀ u ∈ toBase32 l, u < 32 := by
  intro u hu
  simp only [toBase32, List.mem_flatMap] at hu
  obtain ⟨b, hb, hub⟩ := hu
  have := h b hb
  simp only [List.mem_cons, List.not_mem_nil, or_false] at hub
  rcases hub with rfl | rfl <;> omega

/-- The repacking model round-trips on byte lists. -/
lemma fromBase32_toBase32 (l : List Nat) (h : ∀ b ∈ l, b < 256) :
    fromBase32 (toBase32 l) = .ok l := by
  induction l with
  | nil => rfl
  | cons b t ih =>
    have hb : b < 256 := h b (by simp)
    have hstep : toBase32 (b :: t) = b / 32 :: b % 32 :: toBase32 t := by
      simp [toBase32]
    rw [hstep]
    simp only [fromBase32, ih (fun x hx => h x (by simp [hx]))]
    rw [if_pos (by constructor <;> omega)]
    rw [show b / 32 * 32 + b % 32 = b from by omega]

/-- `try_from` inverts `to_num` (source lines 310 and 336-371). -/
lemma tryFromU8_toNum : ∀ v : WitnessVersion, WitnessVersion.tryFromU8 v.toNum = .ok v := by
  decide

/-- The Bech32 model decodes its own encodings, recovering the hrp, the
data symbols and the checksum variant. -/
lemma bech32Decode_encode (hrp : Str) (variant : Variant) (data : List Nat)
    (hne : hrp ≠ [])
    (hlow : hrp.map Char.toLower = hrp)
    (hnup : ∀ c ∈ hrp, c.isUpper = false)
    (hdata : ∀ u ∈ data, u < 32) :
    bech32Decode (bech32Encode hrp variant data) = .ok (hrp, data, variant) := by
  have hbody : ∀ u ∈ data ++ variantMark variant :: bech32Chk hrp data, u < 32 := by
    intro u hu
    rcases List.mem_append.mp hu with h' | h'
    · exact hdata u h'
    · rcases List.mem_cons.mp h' with rfl | h''
      · exact variantMark_lt variant
      · exact bech32Chk_lt hrp data u h''
  have hsenc : bech32Encode hrp variant data =
      hrp ++ '1' :: (data ++ variantMark variant :: bech32Chk hrp data).map bech32EncChar := rfl
  have hupper :
      (hrp ++ '1' :: (data ++ variantMark variant :: bech32Chk hrp data).map bech32EncChar).any
        Char.isUpper = false := by
    rw [List.any_eq_false]
    intro c hc
    simp only [Bool.not_eq_true]
    rcases List.mem_append.mp hc with h' | h'
    · exact hnup c h'
    · rcases List.mem_cons.mp h' with rfl | h''
      · decide
      · obtain ⟨u, _, rfl⟩ := List.mem_map.mp h''
        exact (bech32EncChar_spec u).1
  have hlower :
      (hrp ++ '1' :: (data ++ variantMark variant :: bech32Chk hrp data).map bech32EncChar).map
          Char.toLower =
        hrp ++ '1' :: (data ++ variantMark variant :: bech32Chk hrp data).map bech32EncChar := by
    rw [List.map_append, hlow, List.map_cons, List.map_map]
    congr 1
    congr 1
    apply List.map_congr_left
    intro u _
    exact (bech32EncChar_spec u).2.1
  have hnosep :
      '1' ∉ (data ++ variantMark variant :: bech32Chk hrp data).map bech32EncChar := by
    intro hmem
    obtain ⟨u, _, hu⟩ := List.mem_map.mp hmem
    exact (bech32EncChar_spec u).2.2 hu
  have hsplit := splitLast1_append hrp
    ((data ++ variantMark variant :: bech32Chk hrp data).map bech32EncChar) hnosep
  have hdatlen :
      ((data ++ variantMark variant :: bech32Chk hrp data).map bech32EncChar).length =
        data.length + 6 := by
    simp [bech32Chk]
  have hn : (data ++ variantMark variant :: bech32Chk hrp data).length - 6 = data.length := by
    simp [bech32Chk]
  rw [hsenc]
  unfold bech32Decode
  rw [if_neg (by intro hc; rw [hupper] at hc; simp at hc)]
  simp only [hlower, hsplit]
  rw [if_neg hne, if_neg (by rw [hdatlen]; omega)]
  simp only [bech32DecSyms_enc _ hbody, hn, List.take_left' rfl, List.drop_left' rfl,
    if_pos rfl]
  cases variant <;> rfl

/-- The prefix extracted from a Bech32 rendering is the hrp it was
rendered with. -/
lemma findBech32Pfx_encode (hrp : Str) (variant : Variant) (data : List Nat) :
    findBech32Pfx (bech32Encode hrp variant data) = hrp := by
  have hnosep :
      '1' ∉ (data ++ variantMark variant :: bech32Chk hrp data).map bech32EncChar := by
    intro hmem
    obtain ⟨u, _, hu⟩ := List.mem_map.mp hmem
    exact (bech32EncChar_spec u).2.2 hu
  unfold findBech32Pfx
  rw [show bech32Encode hrp variant data =
      hrp ++ '1' :: (data ++ variantMark variant :: bech32Chk hrp data).map bech32EncChar
    from rfl]
  rw [splitLast1_append _ _ hnosep]

/-- On the Bech32 branch, parsing a rendered witness payload reduces to
the length, segwit-v0 and checksum-variant guards of the source
(source lines 1023-1057). -/
lemma fromStr_bech32Encode (hrp : Str) (variant : Variant) (version : WitnessVersion)
    (program : List Nat) (network : Network)
    (hnet : bech32NetworkOf hrp = some network)
    (hne : hrp ≠ [])
    (hlow : hrp.map Char.toLower = hrp)
    (hnup : ∀ c ∈ hrp, c.isUpper = false)
    (hprog : ∀ b ∈ program, b < 256) :
    Address.fromStr (bech32Encode hrp variant (version.toNum :: toBase32 program)) =
      (if program.length < 2 ∨ program.length > 40 then
        .error (.invalidWitnessProgramLength program.length)
      else if version = .v0 ∧ program.length ≠ 20 ∧ program.length ≠ 32 then
        .error (.invalidSegwitV0ProgramLength program.length)
      else if version.bech32Variant ≠ variant then
        .error (.invalidBech32Variant version.bech32Variant variant)
      else .ok { payload := .witnessProgram version program, network := network,
                 pfx := .segwit hrp }) := by
  have hdata : ∀ u ∈ version.toNum :: toBase32 program, u < 32 := by
    intro u hu
    rcases List.mem_cons.mp hu with rfl | hu'
    · exact toNum_lt_32 version
    · exact toBase32_lt program hprog u hu'
  unfold Address.fromStr
  simp only [findBech32Pfx_encode, hnet,
    bech32Decode_encode hrp variant _ hne hlow hnup hdata]
  rw [if_neg (show ¬(version.toNum :: toBase32 program = []) from by simp)]
  simp only [List.headD_cons, List.tail_cons, tryFromU8_toNum,
    fromBase32_toBase32 program hprog]

/-- The version-byte arm lists as literals. -/
lemma pubkeyMainBytes_eq : pubkeyMainBytes = [0, 30, 48, 75] := rfl
/-- See `pubkeyMainBytes_eq`. -/
lemma scriptMainBytes_eq : scriptMainBytes = [5, 22, 50, 140] := rfl
/-- See `pubkeyMainBytes_eq`. -/
lemma pubkeyTestBytes_eq : pubkeyTestBytes = [111, 113, 111, 120] := rfl
/-- See `pubkeyMainBytes_eq`. -/
lemma scriptTestBytes_eq : scriptTestBytes = [196, 196, 58, 127] := rfl

/-- The (network, chain) pairs on which rendering and re-parsing return
the very same address: legacy payloads re-parse for mainnet and testnet
on every chain, while witness payloads re-parse exactly when the
rendered hrp is one the parser recognizes and it maps back to the
stored network. -/
def RoundTripCombo (p : Payload) (network : Network) (chain : Blockchain) : Prop :=
  match p with
  | .pubkeyHash _ | .scriptHash _ => network = .bitcoin ∨ network = .testnet
  | .witnessProgram _ _ =>
    (network = .bitcoin ∧ chain = .bitcoin) ∨ (network = .testnet ∧ chain = .bitcoin) ∨
      (network = .regtest ∧ chain = .bitcoin) ∨ (network = .bitcoin ∧ chain = .litecoin) ∨
      (network = .testnet ∧ chain = .litecoin)

/-- The rendered text is not captured by the parser's hrp classifier:
for a legacy payload, `find_bech32_prefix` of the rendering (the
substring before its last `'1'`) is none of the twelve recognized
strings, so parsing takes the Base58 branch.  Real Base58 text can
contain `'1'` at any position, so a rendering such as a Stratis
`X1…` or a Litecoin `LTC1…` address is routed to the Bech32 branch
instead and fails to re-parse; witness payloads are always routed to
the Bech32 branch, so the condition is vacuous for them. -/
def NotMisrouted (p : Payload) (network : Network) (chain : Blockchain) : Prop :=
  match p with
  | .pubkeyHash _ | .scriptHash _ =>
    bech32NetworkOf (findBech32Pfx (Address.toText (Address.mk' p network chain))) = none
  | .witnessProgram _ _ => True

instance (p : Payload) (n : Network) (c : Blockchain) : Decidable (NotMisrouted p n c) := by
  unfold NotMisrouted
  cases p <;> infer_instance

instance (p : Payload) : Decidable (ConstructiblePayload p) := by
  unfold ConstructiblePayload
  cases p <;> infer_instance

instance (p : Payload) (n : Network) (c : Blockchain) : Decidable (RoundTripCombo p n c) := by
  unfold RoundTripCombo
  cases p <;> infer_instance

/-- The opcode conversion inverts the opcode rendering of a witness
version (source lines 373-394 and 424-432). -/
lemma tryFromOpcode_versionOpcode : ∀ v : WitnessVersion,
    witnessVersionTryFromOpcode (versionOpcode v) = .ok v := by decide

/-- C2.  For every payload shape a public constructor can produce,
`Payload::from_script` applied to its `script_pubkey()` returns the
payload unchanged. -/
theorem c2_from_script_roundtrip :
    ∀ p : Payload, ConstructiblePayload p →
      Payload.fromScript (Payload.scriptPubkey p) = .ok p := by
  intro p hcons
  cases p with
  | pubkeyHash h =>
    obtain ⟨hlen, -⟩ := hcons
    have hP : isP2pkh (newP2pkh h) := by
      refine ⟨by simp [newP2pkh, hlen], rfl, rfl, rfl, ?_, ?_⟩
      · show (h ++ [136, 172]).getD 20 0 = 136
        rw [List.getD_append_right _ _ _ _ (by omega)]
        simp [hlen]
      · show (h ++ [136, 172]).getD 21 0 = 172
        rw [List.getD_append_right _ _ _ _ (by omega)]
        simp [hlen]
    show Payload.fromScript (newP2pkh h) = .ok (.pubkeyHash h)
    unfold Payload.fromScript
    rw [if_pos hP]
    show Except.ok (Payload.pubkeyHash ((h ++ [136, 172]).take 20)) = _
    rw [List.take_left' hlen]
  | scriptHash h =>
    obtain ⟨hlen, -⟩ := hcons
    have hP : isP2sh (newP2sh h) := by
      refine ⟨by simp [newP2sh, hlen], rfl, rfl, ?_⟩
      show (h ++ [135]).getD 20 0 = 135
      rw [List.getD_append_right _ _ _ _ (by omega)]
      simp [hlen]
    have hnP : ¬ isP2pkh (newP2sh h) := by
      rintro ⟨hl, -⟩
      simp [newP2sh, hlen] at hl
    show Payload.fromScript (newP2sh h) = .ok (.scriptHash h)
    unfold Payload.fromScript
    rw [if_neg hnP, if_pos hP]
    show Except.ok (Payload.scriptHash ((h ++ [135]).take 20)) = _
    rw [List.take_left' hlen]
  | witnessProgram v prog =>
    obtain ⟨-, hshape⟩ := hcons
    have hlen : prog.length = 20 ∨ prog.length = 32 := by
      rcases hshape with ⟨-, h⟩ | ⟨-, h⟩
      · exact h
      · exact Or.inr h
    have hslen : (versionOpcode v :: prog.length :: prog).length = prog.length + 2 := by simp
    have hnth1 : nthByte (versionOpcode v :: prog.length :: prog) 1 = prog.length := rfl
    have hnP : ¬ isP2pkh (versionOpcode v :: prog.length :: prog) := by
      rintro ⟨hl, -⟩
      rw [hslen] at hl
      omega
    have hnS : ¬ isP2sh (versionOpcode v :: prog.length :: prog) := by
      rintro ⟨hl, -⟩
      rw [hslen] at hl
      omega
    have hW : isWitnessProgram (versionOpcode v :: prog.length :: prog) := by
      refine ⟨by omega, by omega, ?_, by rw [hnth1]; omega, by rw [hnth1]; omega,
        by rw [hnth1]; omega⟩
      rcases hshape with ⟨rfl, -⟩ | ⟨rfl, -⟩
      · exact Or.inl rfl
      · rw [show nthByte (versionOpcode WitnessVersion.v1 :: prog.length :: prog) 0 = 81 from rfl]
        exact Or.inr (by decide)
    show Payload.fromScript (versionOpcode v :: prog.length :: prog) = _
    unfold Payload.fromScript
    rw [if_neg hnP, if_neg hnS, if_pos hW]
    rcases hshape with ⟨rfl, hl⟩ | ⟨rfl, hl⟩
    · have hwv : scriptWitnessVersion (versionOpcode .v0 :: prog.length :: prog) =
          some .v0 := rfl
      have hv0 : isV0P2wpkh (versionOpcode .v0 :: prog.length :: prog) ∨
          isV0P2wsh (versionOpcode .v0 :: prog.length :: prog) := by
        rcases hl with h | h
        · exact Or.inl ⟨by simp [h], hwv, by rw [hnth1, h]⟩
        · exact Or.inr ⟨by simp [h], hwv, by rw [hnth1, h]⟩
      rw [if_neg (by rintro ⟨-, hno⟩; exact hno hv0)]
      rw [show nthByte (versionOpcode .v0 :: prog.length :: prog) 0 = versionOpcode .v0 from rfl,
        tryFromOpcode_versionOpcode]
      rfl
    · rw [if_neg (by
        rintro ⟨hwv, -⟩
        rw [show scriptWitnessVersion (versionOpcode WitnessVersion.v1 :: prog.length :: prog) =
          some WitnessVersion.v1 from rfl] at hwv
        simp at hwv)]
      rw [show nthByte (versionOpcode .v1 :: prog.length :: prog) 0 = versionOpcode .v1 from rfl,
        tryFromOpcode_versionOpcode]
      rfl

/-- C2 witness: the script round-trip evaluated on one concrete payload
of each constructor shape. -/
theorem c2_from_script_roundtrip_witness :
    Payload.fromScript (Payload.scriptPubkey (.pubkeyHash (List.replicate 20 1))) =
      .ok (.pubkeyHash (List.replicate 20 1)) ∧
    Payload.fromScript (Payload.scriptPubkey (.scriptHash (List.replicate 20 2))) =
      .ok (.scriptHash (List.replicate 20 2)) ∧
    Payload.fromScript (Payload.scriptPubkey (.witnessProgram .v0 (List.replicate 20 3))) =
      .ok (.witnessProgram .v0 (List.replicate 20 3)) ∧
    Payload.fromScript (Payload.scriptPubkey (.witnessProgram .v0 (List.replicate 32 4))) =
      .ok (.witnessProgram .v0 (List.replicate 32 4)) ∧
    Payload.fromScript (Payload.scriptPubkey (.witnessProgram .v1 (List.replicate 32 5))) =
      .ok (.witnessProgram .v1 (List.replicate 32 5)) :=
  ⟨c2_from_script_roundtrip _ (by decide), c2_from_script_roundtrip _ (by decide),
   c2_from_script_roundtrip _ (by decide), c2_from_script_roundtrip _ (by decide),
   c2_from_script_roundtrip _ (by decide)⟩

/-- The prefix classifier never yields Signet: legacy and `tb` text is
resolved to Testnet instead (source lines 1016-1022). -/
lemma bech32NetworkOf_ne_signet (p : Str) (n : Network) (h : bech32NetworkOf p = some n) :
    n ≠ .signet := by
  intro hn
  subst hn
  unfold bech32NetworkOf at h
  split_ifs at h <;> simp at h

/-- The exact strings the parser's prefix classifier recognizes
(source lines 1017-1020). -/
def recognizedHrps : List Str :=
  ["bc", "BC", "ltc", "LTC", "X", "tb", "TB", "tltc", "TLTC", "q", "bcrt", "BCRT"].map
    String.toList

/-- The classifier succeeds exactly on its literal string list. -/
lemma bech32NetworkOf_isSome_iff (p : Str) :
    (bech32NetworkOf p).isSome ↔ p ∈ recognizedHrps := by
  unfold bech32NetworkOf recognizedHrps
  split_ifs with h1 h2 h3 <;> simp_all <;> tauto

/-- `try_from(u8)` only ever fails with `InvalidWitnessVersion` of its
input (source lines 336-371). -/
lemma tryFromU8_error (n : Nat) (e : AddrError)
    (h : WitnessVersion.tryFromU8 n = .error e) : e = .invalidWitnessVersion n := by
  unfold WitnessVersion.tryFromU8 at h
  split at h <;> simp_all

/-- Once the classifier matched, the parser is committed to the Bech32
branch: no Base58 error can come out of it. -/
lemma fromStr_no_base58_error (s : Str) (h : (bech32NetworkOf (findBech32Pfx s)).isSome) :
    ∀ e, Address.fromStr s ≠ .error (.base58E e) := by
  obtain ⟨net, hn⟩ := Option.isSome_iff_exists.mp h
  intro e
  unfold Address.fromStr
  simp only [hn]
  rcases hd : bech32Decode s with e' | ⟨hrp, pay, var⟩ <;> simp only [hd]
  · simp
  · split_ifs with hemp
    · simp
    · rcases hver : WitnessVersion.tryFromU8 (pay.headD 0) with e' | version <;>
        simp only [hver]
      · obtain rfl := tryFromU8_error _ _ hver
        simp
      · rcases hfb : fromBase32 pay.tail with e' | program <;> simp only [hfb]
        · simp
        · split_ifs <;> simp

/-- C3.  The Bech32 branch is taken exactly when the substring before
the last `'1'` is one of the twelve literal strings in
`recognizedHrps` (the all-lowercase and all-uppercase spellings of
bc/ltc/tb/tltc/bcrt plus the bare "X" and "q"); whenever the extracted
prefix is in that list, parsing never produces a Base58-branch error. -/
theorem c3_bech32_branch_amended :
    ∀ s : Str,
      ((bech32NetworkOf (findBech32Pfx s)).isSome ↔ findBech32Pfx s ∈ recognizedHrps) ∧
      (findBech32Pfx s ∈ recognizedHrps →
        ∀ e, Address.fromStr s ≠ .error (.base58E e)) :=
  fun s => ⟨bech32NetworkOf_isSome_iff _,
    fun hmem e => fromStr_no_base58_error s ((bech32NetworkOf_isSome_iff _).mpr hmem) e⟩

/-- C3 counterexample: the prefix of "Bc1qqqqq" matches the known hrp
"bc" up to ASCII case (mixed case), and the prefix of
"STRAX1qqqqqqqqqq" matches the Stratis mainnet hrp up to case, yet the
classifier rejects both and parsing lands in the Base58 branch and
fails there (both strings are valid Base58 text, so the failure is the
checksum test). -/
theorem c3_bech32_branch_counterexample :
    (findBech32Pfx "Bc1qqqqq".toList).map Char.toLower = "bc".toList ∧
    bech32NetworkOf (findBech32Pfx "Bc1qqqqq".toList) = none ∧
    Address.fromStr "Bc1qqqqq".toList = .error (.base58E .badChecksum) ∧
    (findBech32Pfx "STRAX1qqqqqqqqqq".toList).map Char.toLower = "strax".toList ∧
    bech32NetworkOf (findBech32Pfx "STRAX1qqqqqqqqqq".toList) = none ∧
    Address.fromStr "STRAX1qqqqqqqqqq".toList = .error (.base58E .badChecksum) :=
  ⟨by decide, by decide, by decide, by decide, by decide, by decide⟩

/-- C3 witness: for a string whose extracted prefix is the recognized
"bc", the parser never reports a Base58 error. -/
theorem c3_bech32_branch_witness :
    Address.fromStr "bc1qqqqq".toList ≠ .error (.base58E (.badByte 'b')) :=
  (c3_bech32_branch_amended "bc1qqqqq".toList).2 (by decide) _

/-- C4.  `is_valid_for_network` follows the claim's decision tree:
exact match is valid; one-sided mainnet is invalid; legacy address
types (P2pkh/P2sh) accept any pair drawn from Testnet/Regtest/Signet;
for non-legacy payloads a one-sided Regtest is invalid while the
remaining Testnet/Signet pairs are valid. -/
theorem c4_is_valid_for_network :
    ∀ (a : Address) (n : Network),
      a.isValidForNetwork n =
        (if a.network = n then true
         else if a.network = .bitcoin ∨ n = .bitcoin then false
         else if a.addressType = some .p2pkh ∨ a.addressType = some .p2sh then true
         else if a.network = .regtest ∨ n = .regtest then false
         else true) := by
  intro a n
  unfold Address.isValidForNetwork
  rcases ht : a.addressType with _ | t
  · simp only [ht]
    cases ha : a.network <;> cases n <;> simp
  · cases t <;> simp only [ht] <;> cases ha : a.network <;> cases n <;> simp

/-- C5.  `bech32_variant` maps V0 to Bech32 and every other version to
Bech32m, and a Bech32 rendering whose checksum variant disagrees with
the decoded version's required variant is rejected with
`InvalidBech32Variant` carrying the expected and found variants. -/
theorem c5_checksum_variant_law :
    (∀ v : WitnessVersion, v.bech32Variant = if v = .v0 then .bech32 else .bech32m) ∧
    (∀ (hrp : Str) (variant : Variant) (version : WitnessVersion) (program : List Nat)
        (network : Network),
      bech32NetworkOf hrp = some network → hrp ≠ [] → hrp.map Char.toLower = hrp →
      (∀ c ∈ hrp, c.isUpper = false) → (∀ b ∈ program, b < 256) →
      2 ≤ program.length → program.length ≤ 40 →
      (version = .v0 → program.length = 20 ∨ program.length = 32) →
      variant ≠ version.bech32Variant →
      Address.fromStr (bech32Encode hrp variant (version.toNum :: toBase32 program)) =
        .error (.invalidBech32Variant version.bech32Variant variant)) := by
  constructor
  · decide
  · intro hrp variant version program network hnet hne hlow hnup hwf h2 h40 hv0 hvar
    rw [fromStr_bech32Encode hrp variant version program network hnet hne hlow hnup hwf]
    rw [if_neg (by omega)]
    rw [if_neg (by
      rintro ⟨rfl, h20, h32⟩
      rcases hv0 rfl with h | h
      · exact h20 h
      · exact h32 h)]
    rw [if_pos (Ne.symm hvar)]

/-- C5 witness: the law evaluated at V0, plus a V1 taproot-length
program checksummed as Bech32 instead of Bech32m being rejected with
the expected/found pair. -/
theorem c5_checksum_variant_law_witness :
    WitnessVersion.bech32Variant .v0 = .bech32 ∧
    Address.fromStr
        (bech32Encode "bc".toList .bech32
          (WitnessVersion.toNum .v1 :: toBase32 (List.replicate 32 0))) =
      .error (.invalidBech32Variant .bech32m .bech32) :=
  ⟨(c5_checksum_variant_law.1 .v0).trans (by decide),
   c5_checksum_variant_law.2 "bc".toList .bech32 .v1 (List.replicate 32 0) .bitcoin (by decide)
     (by decide) (by decide) (by decide) (by decide) (by decide) (by decide) (by decide)
     (by decide)⟩

/-- C6.  Length laws of the Bech32 parse branch: no parsed address
carries a witness program outside 2..40 bytes (nor a V0 program outside
{20,32}); a rendered program shorter than 2 or longer than 40 bytes is
rejected with `InvalidWitnessProgramLength` of its length; a rendered
V0 program of any other in-range length is rejected with
`InvalidSegwitV0ProgramLength` of its length. -/
theorem c6_length_laws :
    (∀ (s : Str) (a : Address), Address.fromStr s = .ok a →
      ∀ version prog, a.payload = .witnessProgram version prog →
        2 ≤ prog.length ∧ prog.length ≤ 40 ∧
          (version = .v0 → prog.length = 20 ∨ prog.length = 32)) ∧
    (∀ (hrp : Str) (variant : Variant) (version : WitnessVersion) (program : List Nat)
        (network : Network),
      bech32NetworkOf hrp = some network → hrp ≠ [] → hrp.map Char.toLower = hrp →
      (∀ c ∈ hrp, c.isUpper = false) → (∀ b ∈ program, b < 256) →
      (program.length < 2 ∨ program.length > 40) →
      Address.fromStr (bech32Encode hrp variant (version.toNum :: toBase32 program)) =
        .error (.invalidWitnessProgramLength program.length)) ∧
    (∀ (hrp : Str) (variant : Variant) (program : List Nat) (network : Network),
      bech32NetworkOf hrp = some network → hrp ≠ [] → hrp.map Char.toLower = hrp →
      (∀ c ∈ hrp, c.isUpper = false) → (∀ b ∈ program, b < 256) →
      2 ≤ program.length → program.length ≤ 40 →
      program.length ≠ 20 → program.length ≠ 32 →
      Address.fromStr
          (bech32Encode hrp variant (WitnessVersion.toNum .v0 :: toBase32 program)) =
        .error (.invalidSegwitV0ProgramLength program.length)) := by
  refine ⟨?_, ?_, ?_⟩
  · intro s a h version prog hp
    unfold Address.fromStr at h
    rcases hcl : bech32NetworkOf (findBech32Pfx s) with _ | net <;> simp only [hcl] at h
    · split_ifs at h with h50
      rcases hdec : b58FromCheck s with e | data <;> simp only [hdec] at h
      · simp at h
      · split_ifs at h with hlen hm1 hm2 hm3 hm4 <;>
          (obtain rfl := Except.ok.inj h; simp at hp)
    · rcases hd : bech32Decode s with e | ⟨hrp, pay, var⟩ <;> simp only [hd] at h
      · simp at h
      · split_ifs at h with hemp
        rcases hver : WitnessVersion.tryFromU8 (pay.headD 0) with e | version' <;>
          simp only [hver] at h
        · simp at h
        · rcases hfb : fromBase32 pay.tail with e | program' <;> simp only [hfb] at h
          · simp at h
          · split_ifs at h with hl1 hl2 hl3
            obtain rfl := Except.ok.inj h
            simp only [Payload.witnessProgram.injEq] at hp
            obtain ⟨rfl, rfl⟩ := hp
            refine ⟨by omega, by omega, ?_⟩
            intro hv
            by_cases h20 : program'.length = 20
            · exact Or.inl h20
            · by_cases h32 : program'.length = 32
              · exact Or.inr h32
              · exact absurd ⟨hv, h20, h32⟩ hl2
  · intro hrp variant version program network hnet hne hlow hnup hwf hbad
    rw [fromStr_bech32Encode hrp variant version program network hnet hne hlow hnup hwf]
    rw [if_pos hbad]
  · intro hrp variant program network hnet hne hlow hnup hwf h2 h40 h20 h32
    rw [fromStr_bech32Encode hrp variant .v0 program network hnet hne hlow hnup hwf]
    rw [if_neg (by omega), if_pos ⟨rfl, h20, h32⟩]

set_option maxRecDepth 10000 in
/-- C6 witness: a parsed 32-byte V1 program satisfies the bounds; a
1-byte program and a 25-byte V0 program are rejected with the claimed
errors. -/
theorem c6_length_laws_witness :
    (2 ≤ (List.replicate 32 1 : List Nat).length ∧
      (List.replicate 32 1 : List Nat).length ≤ 40 ∧
      (WitnessVersion.v1 = .v0 →
        (List.replicate 32 1 : List Nat).length = 20 ∨
          (List.replicate 32 1 : List Nat).length = 32)) ∧
    Address.fromStr (bech32Encode "bc".toList .bech32m (WitnessVersion.toNum .v2 :: toBase32 [5])) =
      .error (.invalidWitnessProgramLength 1) ∧
    Address.fromStr
        (bech32Encode "bc".toList .bech32
          (WitnessVersion.toNum .v0 :: toBase32 (List.replicate 25 0))) =
      .error (.invalidSegwitV0ProgramLength 25) :=
  ⟨c6_length_laws.1
      (bech32Encode "bc".toList .bech32m
        (WitnessVersion.toNum .v1 :: toBase32 (List.replicate 32 1)))
      { payload := .witnessProgram .v1 (List.replicate 32 1), network := .bitcoin,
        pfx := .segwit "bc".toList }
      (by decide) .v1 (List.replicate 32 1) rfl,
   c6_length_laws.2.1 "bc".toList .bech32m .v2 [5] .bitcoin (by decide) (by decide) (by decide)
     (by decide) (by decide) (by decide),
   c6_length_laws.2.2 "bc".toList .bech32 (List.replicate 25 0) .bitcoin (by decide) (by decide)
     (by decide) (by decide) (by decide) (by decide) (by decide) (by decide) (by decide)⟩

/-- C7.  Base58-branch guards: inputs longer than 50 characters are
rejected with `InvalidLength` before Base58Check decoding; decoded
buffers that are not exactly 21 bytes are rejected with
`InvalidLength`; an unknown version byte of a 21-byte buffer is
rejected with `InvalidAddressVersion` of that byte. -/
theorem c7_base58_guards :
    (∀ s : Str, bech32NetworkOf (findBech32Pfx s) = none → s.length > 50 →
      Address.fromStr s = .error (.base58E (.invalidLength (s.length * 11 / 15)))) ∧
    (∀ (s : Str) (data : List Nat), bech32NetworkOf (findBech32Pfx s) = none →
      ¬ s.length > 50 → b58FromCheck s = .ok data → data.length ≠ 21 →
      Address.fromStr s = .error (.base58E (.invalidLength data.length))) ∧
    (∀ (s : Str) (b : Nat) (rest : List Nat), bech32NetworkOf (findBech32Pfx s) = none →
      ¬ s.length > 50 → b58FromCheck s = .ok (b :: rest) → rest.length = 20 →
      b ∉ pubkeyMainBytes → b ∉ scriptMainBytes → b ∉ pubkeyTestBytes → b ∉ scriptTestBytes →
      Address.fromStr s = .error (.base58E (.invalidAddressVersion b))) := by
  refine ⟨?_, ?_, ?_⟩
  · intro s hcl h50
    unfold Address.fromStr
    simp only [hcl]
    rw [if_pos h50]
  · intro s data hcl h50 hdec hlen
    unfold Address.fromStr
    simp only [hcl]
    rw [if_neg h50]
    simp only [hdec]
    rw [if_pos hlen]
  · intro s b rest hcl h50 hdec hlen h1 h2 h3 h4
    unfold Address.fromStr
    simp only [hcl]
    rw [if_neg h50]
    simp only [hdec]
    rw [if_neg (by simp [hlen])]
    simp only [List.headD_cons, List.tail_cons]
    rw [if_neg h1, if_neg h2, if_neg h3, if_neg h4]

/-- C7 witness: a 60-character input, a decoded 3-byte buffer and an
unknown version byte 200 each produce the claimed error. -/
theorem c7_base58_guards_witness :
    Address.fromStr (List.replicate 60 'z') = .error (.base58E (.invalidLength 44)) ∧
    Address.fromStr (b58CheckEncode [1, 2, 3]) = .error (.base58E (.invalidLength 3)) ∧
    Address.fromStr (b58CheckEncode (200 :: List.replicate 20 0)) =
      .error (.base58E (.invalidAddressVersion 200)) :=
  ⟨c7_base58_guards.1 _ (by decide) (by decide),
   c7_base58_guards.2.1 _ [1, 2, 3] (by decide) (by decide) (by decide) (by decide),
   c7_base58_guards.2.2 _ 200 (List.replicate 20 0) (by decide) (by decide) (by decide)
     (by decide) (by decide) (by decide) (by decide) (by decide)⟩

/-- C8.  Any Base58 address whose version byte lies in a testnet class
of any supported coin parses to an Address whose network is Testnet;
legacy testnet, regtest and signet bytes are identical, so parsing
cannot distinguish them. -/
theorem c8_testnet_class :
    ∀ (s : Str) (b : Nat) (rest : List Nat),
      bech32NetworkOf (findBech32Pfx s) = none → ¬ s.length > 50 →
      b58FromCheck s = .ok (b :: rest) → rest.length = 20 →
      (b ∈ pubkeyTestBytes ∨ b ∈ scriptTestBytes) →
      ∃ a : Address, Address.fromStr s = .ok a ∧ a.network = .testnet := by
  intro s b rest hcl h50 hdec hlen hmem
  unfold Address.fromStr
  simp only [hcl]
  rw [if_neg h50]
  simp only [hdec]
  rw [if_neg (by simp [hlen])]
  simp only [List.headD_cons, List.tail_cons]
  rcases hmem with hb | hb
  · rw [pubkeyTestBytes_eq] at hb
    simp only [List.mem_cons, List.not_mem_nil, or_false] at hb
    rcases hb with rfl | rfl | rfl | rfl <;> exact ⟨_, rfl, rfl⟩
  · rw [scriptTestBytes_eq] at hb
    simp only [List.mem_cons, List.not_mem_nil, or_false] at hb
    rcases hb with rfl | rfl | rfl | rfl <;> exact ⟨_, rfl, rfl⟩

/-- C8 witness: the Bitcoin testnet pubkey byte 111 parses to a Testnet
address. -/
theorem c8_testnet_class_witness :
    ∃ a : Address, Address.fromStr (b58CheckEncode (111 :: List.replicate 20 0)) = .ok a ∧
      a.network = .testnet :=
  c8_testnet_class _ 111 (List.replicate 20 0) (by decide) (by decide) (by decide) (by decide)
    (by decide)

set_option maxRecDepth 10000 in
/-- C9.  `WitnessVersion::try_from` on an 8-bit integer succeeds
exactly for 0..=16, fails with `InvalidWitnessVersion` of the input
otherwise, and `to_num` inverts every success. -/
theorem c9_witness_version_range :
    ∀ n : Fin 256,
      ((∃ v, WitnessVersion.tryFromU8 n.val = .ok v) ↔ n.val ≤ 16) ∧
      (16 < n.val →
        WitnessVersion.tryFromU8 n.val = .error (.invalidWitnessVersion n.val)) ∧
      (∀ v, WitnessVersion.tryFromU8 n.val = .ok v → v.toNum = n.val) := by
  decide

/-- C9 witness: the range law evaluated at the out-of-range byte 200
and the in-range byte 16. -/
theorem c9_witness_version_range_witness :
    WitnessVersion.tryFromU8 (200 : Fin 256).val =
      .error (.invalidWitnessVersion (200 : Fin 256).val) ∧
    WitnessVersion.toNum .v16 = (16 : Fin 256).val :=
  ⟨(c9_witness_version_range 200).2.1 (by decide),
   (c9_witness_version_range 16).2.2 .v16 (by decide)⟩

/-- C10.  Every successful parse yields an address whose network is
Bitcoin, Testnet or Regtest — never Signet. -/
theorem c10_no_signet_from_parsing :
    ∀ (s : Str) (a : Address), Address.fromStr s = .ok a →
      (a.network = .bitcoin ∨ a.network = .testnet ∨ a.network = .regtest) ∧
        a.network ≠ .signet := by
  intro s a h
  unfold Address.fromStr at h
  rcases hcl : bech32NetworkOf (findBech32Pfx s) with _ | net <;> simp only [hcl] at h
  · split_ifs at h with h50
    rcases hdec : b58FromCheck s with e | data <;> simp only [hdec] at h
    · simp at h
    · split_ifs at h with hlen hm1 hm2 hm3 hm4 <;>
        (obtain rfl := Except.ok.inj h; simp)
  · rcases hd : bech32Decode s with e | ⟨hrp, pay, var⟩ <;> simp only [hd] at h
    · simp at h
    · split_ifs at h with hemp
      rcases hver : WitnessVersion.tryFromU8 (pay.headD 0) with e | version <;>
        simp only [hver] at h
      · simp at h
      · rcases hfb : fromBase32 pay.tail with e | program <;> simp only [hfb] at h
        · simp at h
        · split_ifs at h with hl1 hl2 hl3
          obtain rfl := Except.ok.inj h
          have hns := bech32NetworkOf_ne_signet _ _ hcl
          refine ⟨?_, hns⟩
          cases net <;> simp_all

/-- C10 witness: the invariant applied to a concrete mainnet parse. -/
theorem c10_no_signet_from_parsing_witness :
    ((Address.mk (.pubkeyHash (List.replicate 20 0)) .bitcoin (.pubkey 0)).network = .bitcoin ∨
      (Address.mk (.pubkeyHash (List.replicate 20 0)) .bitcoin (.pubkey 0)).network = .testnet ∨
      (Address.mk (.pubkeyHash (List.replicate 20 0)) .bitcoin (.pubkey 0)).network = .regtest) ∧
    (Address.mk (.pubkeyHash (List.replicate 20 0)) .bitcoin (.pubkey 0)).network ≠ .signet :=
  c10_no_signet_from_parsing (b58CheckEncode (0 :: List.replicate 20 0)) _ (by decide)
